import Mathlib

/-!
# m3: resolving and fetching mods (`internal/mod/add.go`, `internal/mod/disp.go`)

A shallow embedding of `Add`, `fetchMods`, `fetchModFiles`, `extractDeps` and
`renderModInfoTable`.

Conventions of the embedding.

* A Go pointer `*T` is an `Option T`; `none` is `nil`.
* A Go `map[schema.ModID]V` is an association list with one pair per key
  (`GoMap`); `m[k] = v` is `GoMap.store`, the two-valued read `v, ok := m[k]`
  is `GoMap.lookup`, the one-valued read `m[k]` is `GoMap.index`, and
  `range m` walks the pairs of the list.
* A remote call is an oracle.  The goroutines of one fetch are numbered by the
  position of their ID in the argument list, and the oracle gives the outcome
  of the call of each goroutine, so two calls for the same ID may end
  differently.  The goroutines store their results under the mutex one at a
  time; the embedding performs the stores in launch order.
* A run-time panic (index out of range, nil dereference) is the value `none`
  of a function returning `Option`.

Stores to different keys do not depend on their order, and two goroutines for
the same ID differ only in the outcome the oracle gives them, so every map that
some interleaving can produce is produced, up to the order of its pairs, by some
oracle.
-/

namespace M3

/-! ## Data model -/

/-- The integer type `schema.ModID`. -/
abbrev ModID := Int

/-- The enumeration `enum.ModLoader`, by its number. -/
abbrev ModLoader := Nat

/-- The errors that `Add` and the two fetches build or pass on. -/
inductive Error where
  /-- An error returned by the remote API or by `enum.ParseModLoader`. -/
  | remote (msg : String)
  /-- The `errors.Errorf` of `fetchModFiles`: no file for the game version and mod loader. -/
  | noFiles (modID : ModID) (gameVersion : String) (modLoader : ModLoader)
  /-- The `errors.Wrapf` of `Add`: invalid mod loader. -/
  | invalidModLoader (cause : Error) (modLoaderStr : String)
  deriving DecidableEq, Repr

/-- The relation kinds of `enum`: `extractDeps` tells `RequiredDependency` and
`OptionalDependency` from every other kind. -/
inductive RelationType where
  | RequiredDependency
  | OptionalDependency
  | other (code : Nat)
  deriving DecidableEq, Repr

/-- The fields of `schema.FileDependency` that the code reads. -/
structure FileDependency where
  ModID : ModID
  RelationType : RelationType
  deriving DecidableEq, Repr

/-- The fields of `schema.File` that the code reads; `FileDate` is a time stamp. -/
structure File where
  FileName : String
  DownloadURL : String
  FileDate : Nat
  Dependencies : List FileDependency
  deriving DecidableEq, Repr

/-- The fields of `schema.Mod` that the code reads. -/
structure Mod where
  ID : ModID
  Name : String
  deriving DecidableEq, Repr

/-- The zero value of `schema.Mod`. -/
def Mod.zero : Mod := { ID := 0, Name := "" }

namespace util

/-- Modelled from the spec: the generic `util.Result[T]` (package `util` is not
among the sources), "Ok(value T), Err(error, optional partial value)".  The code
reads and writes its two fields `Value` and `Err`; `T` is a pointer type at both
uses, so `Value` is an `Option`. -/
structure Result (T : Type) where
  Value : Option T
  Err : Option Error
  deriving DecidableEq, Repr

/-- Modelled from the spec: `util.Ok(v)` (package `util` is not among the
sources), the Ok state: the value and no error. -/
def Ok {T : Type} (v : Option T) : Result T := { Value := v, Err := none }

/-- Modelled from the spec: `util.Err[T](err)` (package `util` is not among the
sources), the Err state.  The generic constructor receives the error only, so
the value is the zero value of `T`: the nil pointer. -/
def Err {T : Type} (err : Error) : Result T := { Value := none, Err := some err }

/-- Modelled from the spec: `util.Map(f, xs...)` (package `util` is not among
the sources) applies `f` to every element, in order. -/
def Map {α β : Type} (f : α → β) (xs : List α) : List β := xs.map f

/-- Modelled from the spec: `util.Filter(pred, xs...)` (package `util` is not
among the sources) keeps the elements that `pred` accepts, in order. -/
def Filter {α : Type} (pred : α → Bool) (xs : List α) : List α := xs.filter pred

end util

open util (Result)

/-- A Go map keyed by `schema.ModID`. -/
abbrev GoMap (V : Type) := List (ModID × V)

namespace GoMap

/-- The map `make(map[schema.ModID]V, n)`. -/
def empty {V : Type} : GoMap V := []

/-- The read `v, ok := m[k]`: `none` when `ok` is false. -/
def lookup {V : Type} : GoMap V → ModID → Option V
  | [], _ => none
  | (k', v) :: rest, k => if k' = k then some v else lookup rest k

/-- The assignment `m[k] = v`. -/
def store {V : Type} : GoMap V → ModID → V → GoMap V
  | [], k, v => [(k, v)]
  | (k', v') :: rest, k, v => if k' = k then (k, v) :: rest else (k', v') :: store rest k v

/-- The keys of the map, `util.Keys(m)`. -/
def keys {V : Type} (m : GoMap V) : List ModID := m.map Prod.fst

/-- The read `m[k]` of a map of results: the zero `Result` for an absent key. -/
def index {T : Type} (m : GoMap (Result T)) (k : ModID) : Result T :=
  (lookup m k).getD { Value := none, Err := none }

end GoMap

namespace util

/-- Modelled from the spec: `util.Keys(m)` (package `util` is not among the
sources) returns the keys of the map. -/
def Keys {V : Type} (m : GoMap V) : List ModID := GoMap.keys m

end util

namespace maps

/-- The standard `maps.Copy(dst, src)`: `dst[k] = v` for every pair of `src`. -/
def Copy {V : Type} (dst src : GoMap V) : GoMap V :=
  src.foldl (fun d kv => GoMap.store d kv.1 kv.2) dst

end maps

/-- The type `fetchModResult`. -/
abbrev fetchModResult := GoMap (Result Mod)

/-- The type `fetchFileResult`. -/
abbrev fetchFileResult := GoMap (Result File)

/-! ## `fetchMods` -/

/-- The goroutine of `fetchMods` for `modID`, from the outcome of `api.Mod(modID)`:
the result it stores, and what it adds to `successCnt`. -/
def fetchModsGo (modID : ModID) (out : Except Error Mod) : Result Mod × Int :=
  match out with
  | .error err =>
    let res : Result Mod := util.Err err
    ({ res with Value := some { Mod.zero with ID := modID } }, 0)
  | .ok data => (util.Ok (some data), 1)

/-- The loop of `fetchMods` from goroutine number `i` on: the state is the result
map and `successCnt`. -/
def fetchModsLoop (api : Nat → ModID → Except Error Mod) :
    Nat → List ModID → fetchModResult × Int → fetchModResult × Int
  | _, [], st => st
  | i, modID :: rest, (result, successCnt) =>
    let (res, inc) := fetchModsGo modID (api i modID)
    fetchModsLoop api (i + 1) rest (GoMap.store result modID res, successCnt + inc)

/-- The function `fetchMods`: `api i id` is the outcome of `api.Mod(id)` in goroutine `i`. -/
def fetchMods (api : Nat → ModID → Except Error Mod) (modIDs : List ModID) :
    fetchModResult × Int :=
  fetchModsLoop api 0 modIDs (GoMap.empty, 0)

/-! ## `fetchModFiles` -/

/-- The goroutine of `fetchModFiles` for `modID`, from the outcome of the filtered
`api.ModFiles` query; `none` is a panic (`resp.Data[0]` out of range, or `resp` nil). -/
def fetchModFilesGo (gameVersion : String) (modLoader : ModLoader) (modID : ModID)
    (out : Except Error (List File)) : Option (Result File) :=
  let err : Option Error :=
    match out with
    | .error e => some e
    | .ok data => if data.length = 0 then some (Error.noFiles modID gameVersion modLoader) else none
  match err with
  | some e => some (util.Err e)
  | none =>
    match out with
    | .ok data => (data[0]?).map (fun f => util.Ok (some f))
    | .error _ => none

/-- The loop of `fetchModFiles` from goroutine number `i` on. -/
def fetchModFilesLoop (gameVersion : String) (modLoader : ModLoader)
    (api : Nat → ModID → Except Error (List File)) :
    Nat → List ModID → fetchFileResult → Option fetchFileResult
  | _, [], result => some result
  | i, modID :: rest, result =>
    match fetchModFilesGo gameVersion modLoader modID (api i modID) with
    | none => none
    | some res => fetchModFilesLoop gameVersion modLoader api (i + 1) rest (GoMap.store result modID res)

/-- The function `fetchModFiles`: `gameVersion` is `index.Meta.GameVersion`, and
`api i id` is the outcome of the `api.ModFiles` query for `id` in goroutine `i`. -/
def fetchModFiles (gameVersion : String) (modLoader : ModLoader)
    (api : Nat → ModID → Except Error (List File)) (modIDs : List ModID) :
    Option fetchFileResult :=
  fetchModFilesLoop gameVersion modLoader api 0 modIDs GoMap.empty

/-! ## `extractDeps` -/

/-- Modelled from the spec: a node `Dep(id, deps...)` of the dependency tree
(`DepTree` is in package `mod` but not among the sources): an ID with its outgoing
targets. -/
structure DepNode where
  id : ModID
  deps : List ModID
  deriving DecidableEq, Repr

/-- Modelled from the spec: the `DepTree` (`NewDepTree`, `Dep`, `AddNode` and
`TopSort` are in package `mod` but not among the sources), "mapping from ItemID
to its outgoing set of ItemIDs", kept as the nodes handed to `AddNode`, in the
order of the calls.  `TopSort` is a parameter of `extractDeps`. -/
abbrev DepTree := List DepNode

/-- Modelled from the spec: `NewDepTree()`, the tree without nodes. -/
def NewDepTree : DepTree := []

/-- Modelled from the spec: `Dep(id, deps...)`, the node of `id` with outgoing targets `deps`. -/
def Dep (id : ModID) (deps : List ModID) : DepNode := { id := id, deps := deps }

/-- Modelled from the spec: `dt.AddNode(n)` adds the node `n` to the tree. -/
def DepTree.AddNode (dt : DepTree) (n : DepNode) : DepTree := dt ++ [n]

/-- The predicate that `extractDeps` hands to `util.Filter`: the `switch` on the relation type. -/
def keepDep (option : Bool) (dep : FileDependency) : Bool :=
  match dep.RelationType with
  | .RequiredDependency => true
  | .OptionalDependency => option
  | _ => false

/-- The loop of `extractDeps`: the tree after the `range` over `results`. -/
def extractDepsTree (option : Bool) (results : fetchFileResult) : DepTree :=
  results.foldl
    (fun dt entry =>
      match entry.2.Value with
      | none => dt
      | some file =>
        dt.AddNode (Dep entry.1
          (util.Map (fun dep => dep.ModID) (util.Filter (keepDep option) file.Dependencies))))
    NewDepTree

/-- The function `extractDeps`; `TopSort` is the method `dt.TopSort`. -/
def extractDeps (TopSort : DepTree → List ModID) (option : Bool) (results : fetchFileResult) :
    List ModID :=
  TopSort (extractDepsTree option results)

/-! ## `renderModInfoTable` -/

/-- A row handed to `t.AppendRow`: the row of an item whose metadata result has an
error (the message fills the three middle cells), or the row of an item with
metadata.  `date` is `none` for the text "No release found!" and the file date
otherwise. -/
inductive Row where
  | failed (index : Nat) (modID : ModID) (errMsg : Error) (isDep : Bool)
  | info (index : Nat) (modID : ModID) (name : String) (date : Option Nat) (isDep : Bool)
  deriving DecidableEq, Repr

/-- The item a row is about. -/
def Row.modID : Row → ModID
  | .failed _ modID _ _ => modID
  | .info _ modID _ _ _ => modID

/-- The last column of a row. -/
def Row.isDep : Row → Bool
  | .failed _ _ _ isDep => isDep
  | .info _ _ _ _ isDep => isDep

/-- The closure `appendMod` of `renderModInfoTable`: the state is `index` and the
rows appended so far; `none` is the panic of `mod.Name` on a nil `mod`. -/
def appendMod (modInfoMap : fetchModResult) (isDep : Bool) :
    fetchFileResult → Nat × List Row → Option (Nat × List Row)
  | [], st => some st
  | (modID, result) :: rest, (index, rows) =>
    let info := GoMap.index modInfoMap modID
    match info.Err with
    | some err => appendMod modInfoMap isDep rest (index + 1, rows ++ [Row.failed index modID err isDep])
    | none =>
      match info.Value with
      | none => none
      | some mod =>
        let date : Option Nat :=
          match result.Value with
          | some file => some file.FileDate
          | none => none
        appendMod modInfoMap isDep rest (index + 1, rows ++ [Row.info index modID mod.Name date isDep])

/-- The function `renderModInfoTable`, up to the rendering of the rows. -/
def renderModInfoTable (modInfoMap : fetchModResult) (directFileMap depFileMap : fetchFileResult) :
    Option (List Row) :=
  match appendMod modInfoMap true depFileMap (1, []) with
  | none => none
  | some st =>
    match appendMod modInfoMap false directFileMap st with
    | none => none
    | some st' => some st'.2

/-! ## `Add` -/

/-- The fields of the file of an `index.Mod` that `Add` reads. -/
structure IndexFile where
  Name : String
  DownloadUrl : String
  HashMD5 : String
  deriving DecidableEq, Repr

/-- The field of `index.Mod` that `Add` reads. -/
structure IndexMod where
  File : IndexFile
  deriving DecidableEq, Repr

/-- The type `util.DownloadTask`. -/
structure DownloadTask where
  FileName : String
  Url : String
  MD5Sum : String
  deriving DecidableEq, Repr

/-- What `Add` calls outside the three source files. -/
structure Env where
  /-- The library function `enum.ParseModLoader`. -/
  ParseModLoader : String → Except Error ModLoader
  /-- The global `index.Meta.GameVersion`. -/
  GameVersion : String
  /-- The outcome of `api.ModFiles`: the fetch (0 direct, 1 dependencies), the goroutine, the ID. -/
  ModFiles : Nat → Nat → ModID → Except Error (List File)
  /-- The outcome of `api.Mod`: the goroutine, the ID. -/
  Mod : Nat → ModID → Except Error Mod
  /-- The method `TopSort` of the dependency tree. -/
  TopSort : DepTree → List ModID
  /-- The function `promptDownload`. -/
  promptDownload : Bool → Bool
  /-- The constructor `index.NewMod`. -/
  NewMod : ModLoader → Option M3.Mod → Option File → IndexMod
  /-- The global `index.Mods` before the call. -/
  Mods : GoMap IndexMod
  /-- The function `util.Download`: the number of files downloaded. -/
  Download : List DownloadTask → Nat

/-- The download stage of `Add`, the body of `if found > 0 && promptDownload(confirm)`. -/
structure DownloadStage where
  /-- The map `modFileMap` after `maps.Copy(modFileMap, depFileMap)`. -/
  merged : fetchFileResult
  /-- The global `index.Mods` after the loop. -/
  Mods : GoMap IndexMod
  /-- The tasks handed to `util.Download`. -/
  downloadMods : List DownloadTask
  /-- The count `util.Download` returned. -/
  downloadCnt : Nat

/-- What a call of `Add` did. -/
structure AddRun where
  /-- The error `Add` returned; `none` is `nil`. -/
  err : Option Error
  /-- The IDs of the `api.ModFiles` queries made. -/
  modFilesCalls : List ModID
  /-- The IDs of the `api.Mod` queries made. -/
  modCalls : List ModID
  /-- The result of the fetch of the direct files, before any merge. -/
  modFileMap : fetchFileResult
  /-- The list that `extractDeps` returned. -/
  deps : List ModID
  /-- The IDs handed to the fetch of the dependency files. -/
  depIDs : List ModID
  /-- The result of the fetch of the dependency files. -/
  depFileMap : fetchFileResult
  /-- The metadata map and the count that `fetchMods` returned. -/
  modMap : fetchModResult
  found : Int
  /-- The rows of the table printed. -/
  table : List Row
  /-- The arguments of the calls of `promptDownload` made, in order. -/
  promptCalls : List Bool
  /-- The download stage, `none` when it was not entered. -/
  download : Option DownloadStage

/-- The `range modFileMap` loop of the download stage: the state is `index.Mods`
and `downloadMods`. -/
def downloadLoop (NewMod : ModLoader → Option Mod → Option File → IndexMod)
    (modLoader : ModLoader) (modMap : fetchModResult) :
    fetchFileResult → GoMap IndexMod × List DownloadTask → GoMap IndexMod × List DownloadTask
  | [], st => st
  | (modID, result) :: rest, (mods, downloadMods) =>
    let mod := NewMod modLoader (GoMap.index modMap modID).Value result.Value
    let mods' := GoMap.store mods modID mod
    let downloadMods' :=
      match result.Value with
      | some file =>
        if file.DownloadURL ≠ "" ∧ file.FileName ≠ "" then
          downloadMods ++ [{ FileName := mod.File.Name, Url := mod.File.DownloadUrl,
                             MD5Sum := mod.File.HashMD5 }]
        else downloadMods
      | none => downloadMods
    downloadLoop NewMod modLoader modMap rest (mods', downloadMods')

/-- The function `Add`; `none` is a run-time panic.  The condition
`found > 0 && promptDownload(confirm)` is `gate`: its value, and the calls of
`promptDownload` made to evaluate it, none when `found > 0` fails. -/
def Add (env : Env) (modLoaderStr : String) (confirm optDep : Bool) (ids : List Int) :
    Option AddRun :=
  match env.ParseModLoader modLoaderStr with
  | .error err =>
    some { err := some (Error.invalidModLoader err modLoaderStr), modFilesCalls := [],
           modCalls := [], modFileMap := [], deps := [], depIDs := [], depFileMap := [],
           modMap := [], found := 0, table := [], promptCalls := [], download := none }
  | .ok modLoader =>
    let modIDs : List ModID := util.Map (fun id => id) ids
    match fetchModFiles env.GameVersion modLoader (env.ModFiles 0) modIDs with
    | none => none
    | some modFileMap =>
      let deps := extractDeps env.TopSort optDep modFileMap
      let depIDs := util.Filter (fun id => !(GoMap.lookup modFileMap id).isSome) deps
      match fetchModFiles env.GameVersion modLoader (env.ModFiles 1) depIDs with
      | none => none
      | some depFileMap =>
        let allModIDs := util.Keys modFileMap ++ util.Keys depFileMap
        let fetched := fetchMods env.Mod allModIDs
        let modMap := fetched.1
        let found := fetched.2
        match renderModInfoTable modMap modFileMap depFileMap with
        | none => none
        | some table =>
          let gate : Bool × List Bool :=
            if found > 0 then (env.promptDownload confirm, [confirm]) else (false, [])
          let download : Option DownloadStage :=
            if gate.1 = true then
              let merged := maps.Copy modFileMap depFileMap
              let looped := downloadLoop env.NewMod modLoader modMap merged (env.Mods, [])
              some { merged := merged, Mods := looped.1, downloadMods := looped.2,
                     downloadCnt := env.Download looped.2 }
            else none
          some { err := none, modFilesCalls := modIDs ++ depIDs, modCalls := allModIDs,
                 modFileMap := modFileMap, deps := deps, depIDs := depIDs,
                 depFileMap := depFileMap, modMap := modMap, found := found, table := table,
                 promptCalls := gate.2, download := download }

/-! ## Closed forms used in the proofs -/

/-- The result that the goroutine of `fetchModFiles` stores (`fetchModFilesGo_eq`:
the goroutine never panics and stores this). -/
def fileResult (gameVersion : String) (modLoader : ModLoader) (modID : ModID) :
    Except Error (List File) → Result File
  | .error e => util.Err e
  | .ok [] => util.Err (Error.noFiles modID gameVersion modLoader)
  | .ok (f :: _) => util.Ok (some f)

/-- The stores of the goroutines of `fetchModFiles` from number `i` on, in order. -/
def fileWrites (gameVersion : String) (modLoader : ModLoader)
    (api : Nat → ModID → Except Error (List File)) : Nat → List ModID → fetchFileResult
  | _, [] => []
  | i, modID :: rest =>
    (modID, fileResult gameVersion modLoader modID (api i modID))
      :: fileWrites gameVersion modLoader api (i + 1) rest

/-- The stores of the goroutines of `fetchMods` from number `i` on, in order. -/
def modWrites (api : Nat → ModID → Except Error Mod) : Nat → List ModID → fetchModResult
  | _, [] => []
  | i, modID :: rest => (modID, (fetchModsGo modID (api i modID)).1) :: modWrites api (i + 1) rest

/-- What the goroutines of `fetchMods` from number `i` on add to `successCnt`. -/
def modSuccesses (api : Nat → ModID → Except Error Mod) : Nat → List ModID → Int
  | _, [] => 0
  | i, modID :: rest => (fetchModsGo modID (api i modID)).2 + modSuccesses api (i + 1) rest

/-- The node that one pass of the loop of `extractDeps` adds for an entry, if any. -/
def nodeOf (option : Bool) (entry : ModID × Result File) : Option DepNode :=
  entry.2.Value.map (fun file =>
    Dep entry.1 (util.Map (fun dep => dep.ModID) (util.Filter (keepDep option) file.Dependencies)))

/-- The edge policy in the words of the specification: the targets, in order, of
the edges whose relation is Required, or Optional with the flag set. -/
def specKeptTargets (includeOptional : Bool) (edges : List FileDependency) : List ModID :=
  (edges.filter (fun d =>
    decide (d.RelationType = RelationType.RequiredDependency ∨
      (d.RelationType = RelationType.OptionalDependency ∧ includeOptional = true)))).map
    (fun d => d.ModID)

/-- The task that the download loop of `Add` builds for an entry of the merged map
(`add.go`, lines 79 and 82 to 86). -/
def downloadTaskOf (NewMod : ModLoader → Option Mod → Option File → IndexMod)
    (modLoader : ModLoader) (modMap : fetchModResult) (entry : ModID × Result File) :
    DownloadTask :=
  { FileName := (NewMod modLoader (GoMap.index modMap entry.1).Value entry.2.Value).File.Name,
    Url := (NewMod modLoader (GoMap.index modMap entry.1).Value entry.2.Value).File.DownloadUrl,
    MD5Sum := (NewMod modLoader (GoMap.index modMap entry.1).Value entry.2.Value).File.HashMD5 }

/-- The test of the download loop of `Add` on an entry (`add.go`, line 81). -/
def hasDownload (entry : ModID × Result File) : Bool :=
  match entry.2.Value with
  | some file => decide (file.DownloadURL ≠ "" ∧ file.FileName ≠ "")
  | none => false

/-- The condition of the download plan in the words of the specification: the
Result is Ok and the file has a non-empty URL and a non-empty file name. -/
def specEligible (r : Result File) : Bool :=
  r.Err.isNone &&
    (match r.Value with
     | some file => decide (file.DownloadURL ≠ "") && decide (file.FileName ≠ "")
     | none => false)

/-! ## Concrete data for the examples -/

/-- A file with a download URL and a name, and the given dependencies. -/
def exFile (name : String) (deps : List FileDependency) : File :=
  { FileName := name, DownloadURL := "https://example.invalid/" ++ name, FileDate := 7,
    Dependencies := deps }

/-- An environment: mod 10 has a file requiring 30 and optionally 40, mod 20 has no
file, mod 30 has a file, the metadata of 20 cannot be fetched, the prompt follows
`confirm`, and `TopSort` lists every node followed by its targets. -/
def exEnv : Env where
  ParseModLoader := fun s => if s = "forge" then .ok 1 else .error (Error.remote "unknown mod loader")
  GameVersion := "1.20.1"
  ModFiles := fun _ _ id =>
    if id = 10 then
      .ok [exFile "a.jar" [⟨30, .RequiredDependency⟩, ⟨40, .OptionalDependency⟩, ⟨50, .other 5⟩]]
    else if id = 30 then .ok [exFile "c.jar" []]
    else if id = 20 then .ok []
    else .error (Error.remote "not found")
  Mod := fun _ id => if id = 20 then .error (Error.remote "timeout") else .ok { ID := id, Name := "mod" }
  TopSort := fun dt => dt.foldr (fun n acc => n.id :: (n.deps ++ acc)) []
  promptDownload := fun confirm => confirm
  NewMod := fun _ _ file =>
    match file with
    | some f => { File := { Name := f.FileName, DownloadUrl := f.DownloadURL, HashMD5 := "" } }
    | none => { File := { Name := "", DownloadUrl := "", HashMD5 := "" } }
  Mods := []
  Download := fun tasks => tasks.length

/-- A file-result map whose only entry has an error and a file. -/
def exErrWithValue : fetchFileResult :=
  [(1, { Value := some (exFile "a.jar" [⟨30, .RequiredDependency⟩]), Err := some (Error.remote "gone") })]

/-- The outcome of the file queries of two IDs: 98 fails remotely, 99 has no matching file. -/
def exFailingFiles : Nat → ModID → Except Error (List File) :=
  fun _ id => if id = 98 then .error (Error.remote "timeout") else .ok []

/-! ## Lemmas on Go maps -/

namespace GoMap

theorem lookup_store {V : Type} (m : GoMap V) (k x : ModID) (v : V) :
    lookup (store m k v) x = if k = x then some v else lookup m x := by
  induction m with
  | nil => simp [store, lookup]
  | cons hd tl ih =>
    obtain ⟨k', v'⟩ := hd
    by_cases h : k' = k
    · subst h
      by_cases hx : k' = x <;> simp [store, lookup, hx]
    · by_cases hx : k' = x
      · subst hx
        have h' : ¬ k = k' := fun e => h e.symm
        simp [store, lookup, h, h']
      · simp [store, lookup, h, hx, ih]

theorem keys_store {V : Type} (m : GoMap V) (k : ModID) (v : V) :
    keys (store m k v) = if k ∈ keys m then keys m else keys m ++ [k] := by
  induction m with
  | nil => simp [store, keys]
  | cons hd tl ih =>
    obtain ⟨k', v'⟩ := hd
    by_cases h : k' = k
    · subst h
      simp [store, keys]
    · have h' : ¬ k = k' := fun e => h e.symm
      have ih' := ih
      simp only [keys] at ih'
      by_cases hk : k ∈ List.map Prod.fst tl
      · simp [store, keys, h, h', hk, ih'] 
      · simp [store, keys, h, h', hk, ih']

theorem mem_keys_store {V : Type} (m : GoMap V) (k x : ModID) (v : V) :
    x ∈ keys (store m k v) ↔ x ∈ keys m ∨ x = k := by
  rw [keys_store]
  by_cases hk : k ∈ keys m
  · simp only [hk, if_true]
    constructor
    · intro h; exact Or.inl h
    · rintro (h | h)
      · exact h
      · subst h; exact hk
  · simp [hk]

theorem nodup_keys_store {V : Type} (m : GoMap V) (k : ModID) (v : V)
    (h : (keys m).Nodup) : (keys (store m k v)).Nodup := by
  rw [keys_store]
  by_cases hk : k ∈ keys m
  · simpa [hk] using h
  · simp only [hk, if_false]
    exact List.Nodup.append h (List.nodup_singleton k) (by
      intro a ha hb
      simp at hb
      subst hb
      exact hk ha)

theorem store_of_not_mem {V : Type} (m : GoMap V) (k : ModID) (v : V)
    (h : k ∉ keys m) : store m k v = m ++ [(k, v)] := by
  induction m with
  | nil => simp [store]
  | cons hd tl ih =>
    obtain ⟨k', v'⟩ := hd
    simp only [keys, List.map_cons, List.mem_cons, not_or] at h
    have h' : ¬ k' = k := fun e => h.1 e.symm
    simp [store, h', ih h.2]

theorem mem_store {V : Type} (m : GoMap V) (k : ModID) (v : V) (e : ModID × V)
    (h : e ∈ store m k v) : e ∈ m ∨ e = (k, v) := by
  induction m with
  | nil => simpa [store] using h
  | cons hd tl ih =>
    obtain ⟨k', v'⟩ := hd
    by_cases hk : k' = k
    · simp only [store, hk, if_true, List.mem_cons] at h
      rcases h with h | h
      · exact Or.inr h
      · exact Or.inl (List.mem_cons_of_mem _ h)
    · simp only [store, hk, if_false, List.mem_cons] at h
      rcases h with h | h
      · exact Or.inl (by rw [h]; exact List.mem_cons_self _ _)
      · rcases ih h with h1 | h1
        · exact Or.inl (List.mem_cons_of_mem _ h1)
        · exact Or.inr h1

theorem lookup_eq_none_iff {V : Type} (m : GoMap V) (k : ModID) :
    lookup m k = none ↔ k ∉ keys m := by
  induction m with
  | nil => simp [lookup, keys]
  | cons hd tl ih =>
    obtain ⟨k', v'⟩ := hd
    by_cases hk : k' = k
    · simp [lookup, keys, hk]
    · have h' : ¬ k = k' := fun e => hk e.symm
      simp only [keys] at ih
      simp [lookup, keys, hk, h', ih]

theorem lookup_isSome_iff {V : Type} (m : GoMap V) (k : ModID) :
    (lookup m k).isSome = true ↔ k ∈ keys m := by
  cases h : lookup m k with
  | none =>
    have := (lookup_eq_none_iff m k).1 h
    simp [this]
  | some v =>
    have : k ∈ keys m := by
      by_contra hc
      rw [(lookup_eq_none_iff m k).2 hc] at h
      cases h
    simp [this]

theorem mem_of_lookup {V : Type} (m : GoMap V) (k : ModID) (v : V)
    (h : lookup m k = some v) : (k, v) ∈ m := by
  induction m with
  | nil => simp [lookup] at h
  | cons hd tl ih =>
    obtain ⟨k', v'⟩ := hd
    by_cases hk : k' = k
    · simp only [lookup, hk, if_true, Option.some.injEq] at h
      subst hk; subst h
      exact List.mem_cons_self _ _
    · simp only [lookup, hk, if_false] at h
      exact List.mem_cons_of_mem _ (ih h)

theorem lookup_of_mem {V : Type} (m : GoMap V) (k : ModID) (v : V)
    (hn : (keys m).Nodup) (h : (k, v) ∈ m) : lookup m k = some v := by
  induction m with
  | nil => simp at h
  | cons hd tl ih =>
    obtain ⟨k', v'⟩ := hd
    simp only [keys, List.map_cons, List.nodup_cons] at hn
    rcases List.mem_cons.1 h with h | h
    · cases h
      simp [lookup]
    · have hk : ¬ k' = k := by
        intro e
        subst e
        exact hn.1 (List.mem_map.2 ⟨(k', v), h, rfl⟩)
      simp only [lookup, hk, if_false]
      exact ih hn.2 h

theorem mem_keys_of_mem {V : Type} (m : GoMap V) (e : ModID × V) (h : e ∈ m) :
    e.1 ∈ keys m :=
  List.mem_map.2 ⟨e, h, rfl⟩

end GoMap

/-! ## Lemmas on `maps.Copy` -/

theorem Copy_nil {V : Type} (dst : GoMap V) : maps.Copy dst [] = dst := rfl

theorem Copy_cons {V : Type} (dst : GoMap V) (e : ModID × V) (src : GoMap V) :
    maps.Copy dst (e :: src) = maps.Copy (GoMap.store dst e.1 e.2) src := rfl

theorem mem_keys_Copy {V : Type} (src dst : GoMap V) (x : ModID) :
    x ∈ GoMap.keys (maps.Copy dst src) ↔ x ∈ GoMap.keys dst ∨ x ∈ GoMap.keys src := by
  induction src generalizing dst with
  | nil => simp [Copy_nil, GoMap.keys]
  | cons e tl ih =>
    rw [Copy_cons, ih, GoMap.mem_keys_store]
    simp only [GoMap.keys, List.map_cons, List.mem_cons]
    tauto

theorem nodup_keys_Copy {V : Type} (src dst : GoMap V) (h : (GoMap.keys dst).Nodup) :
    (GoMap.keys (maps.Copy dst src)).Nodup := by
  induction src generalizing dst with
  | nil => simpa [Copy_nil] using h
  | cons e tl ih =>
    rw [Copy_cons]
    exact ih _ (GoMap.nodup_keys_store dst e.1 e.2 h)

theorem mem_Copy {V : Type} (src dst : GoMap V) (e : ModID × V)
    (h : e ∈ maps.Copy dst src) : e ∈ dst ∨ e ∈ src := by
  induction src generalizing dst with
  | nil => exact Or.inl h
  | cons hd tl ih =>
    rw [Copy_cons] at h
    rcases ih _ h with h1 | h1
    · rcases GoMap.mem_store dst hd.1 hd.2 e h1 with h2 | h2
      · exact Or.inl h2
      · exact Or.inr (by rw [h2]; exact List.mem_cons_self _ _)
    · exact Or.inr (List.mem_cons_of_mem _ h1)

theorem lookup_Copy_of_not_mem {V : Type} (src dst : GoMap V) (x : ModID)
    (h : x ∉ GoMap.keys src) : GoMap.lookup (maps.Copy dst src) x = GoMap.lookup dst x := by
  induction src generalizing dst with
  | nil => rfl
  | cons hd tl ih =>
    simp only [GoMap.keys, List.map_cons, List.mem_cons, not_or] at h
    rw [Copy_cons, ih _ h.2, GoMap.lookup_store]
    have : ¬ hd.1 = x := fun e => h.1 e.symm
    simp [this]

theorem Copy_of_disjoint {V : Type} (src dst : GoMap V) (hn : (GoMap.keys src).Nodup)
    (hd : ∀ x ∈ GoMap.keys src, x ∉ GoMap.keys dst) : maps.Copy dst src = dst ++ src := by
  induction src generalizing dst with
  | nil => simp [Copy_nil]
  | cons e tl ih =>
    simp only [GoMap.keys, List.map_cons, List.nodup_cons] at hn
    have he : e.1 ∉ GoMap.keys dst := hd e.1 (by simp [GoMap.keys])
    rw [Copy_cons, GoMap.store_of_not_mem dst e.1 e.2 he, ih _ hn.2]
    · simp
    · intro x hx
      simp only [GoMap.keys, List.map_append, List.map_cons, List.map_nil, List.mem_append,
        List.mem_singleton, not_or]
      refine ⟨hd x (by simp only [GoMap.keys, List.map_cons, List.mem_cons]; exact Or.inr hx), ?_⟩
      intro hxe
      subst hxe
      exact hn.1 hx

/-! ## The two fetches in closed form -/

theorem fetchModFilesGo_eq (gameVersion : String) (modLoader : ModLoader) (modID : ModID)
    (out : Except Error (List File)) :
    fetchModFilesGo gameVersion modLoader modID out
      = some (fileResult gameVersion modLoader modID out) := by
  rcases out with e | data
  · rfl
  · cases data with
    | nil => rfl
    | cons f fs => simp [fetchModFilesGo, fileResult]

theorem fetchModFilesLoop_eq (gameVersion : String) (modLoader : ModLoader)
    (api : Nat → ModID → Except Error (List File)) (modIDs : List ModID) (i : Nat)
    (result : fetchFileResult) :
    fetchModFilesLoop gameVersion modLoader api i modIDs result
      = some (maps.Copy result (fileWrites gameVersion modLoader api i modIDs)) := by
  induction modIDs generalizing i result with
  | nil => rfl
  | cons id rest ih =>
    simp only [fetchModFilesLoop, fetchModFilesGo_eq, fileWrites, Copy_cons]
    exact ih _ _

theorem fetchModFiles_eq (gameVersion : String) (modLoader : ModLoader)
    (api : Nat → ModID → Except Error (List File)) (modIDs : List ModID) :
    fetchModFiles gameVersion modLoader api modIDs
      = some (maps.Copy [] (fileWrites gameVersion modLoader api 0 modIDs)) :=
  fetchModFilesLoop_eq gameVersion modLoader api modIDs 0 []

theorem keys_fileWrites (gameVersion : String) (modLoader : ModLoader)
    (api : Nat → ModID → Except Error (List File)) (modIDs : List ModID) (i : Nat) :
    GoMap.keys (fileWrites gameVersion modLoader api i modIDs) = modIDs := by
  induction modIDs generalizing i with
  | nil => rfl
  | cons id rest ih =>
    have := ih (i + 1)
    simp only [GoMap.keys] at this
    simp [fileWrites, GoMap.keys, this]

theorem mem_fileWrites (gameVersion : String) (modLoader : ModLoader)
    (api : Nat → ModID → Except Error (List File)) (modIDs : List ModID) (i : Nat)
    (e : ModID × Result File) (h : e ∈ fileWrites gameVersion modLoader api i modIDs) :
    ∃ j, modIDs[j]? = some e.1 ∧ e.2 = fileResult gameVersion modLoader e.1 (api (i + j) e.1) := by
  induction modIDs generalizing i with
  | nil => simp [fileWrites] at h
  | cons id rest ih =>
    simp only [fileWrites, List.mem_cons] at h
    rcases h with h | h
    · exact ⟨0, by simp [h], by simp [h]⟩
    · obtain ⟨j, h1, h2⟩ := ih (i + 1) h
      refine ⟨j + 1, by simpa using h1, ?_⟩
      rw [h2]
      congr 2
      omega

theorem fetchModsLoop_eq (api : Nat → ModID → Except Error Mod) (modIDs : List ModID) (i : Nat)
    (result : fetchModResult) (successCnt : Int) :
    fetchModsLoop api i modIDs (result, successCnt)
      = (maps.Copy result (modWrites api i modIDs), successCnt + modSuccesses api i modIDs) := by
  induction modIDs generalizing i result successCnt with
  | nil => simp [fetchModsLoop, modWrites, modSuccesses, Copy_nil]
  | cons id rest ih =>
    simp only [fetchModsLoop, modWrites, modSuccesses, Copy_cons]
    rw [ih]
    simp [add_assoc]

theorem fetchMods_eq (api : Nat → ModID → Except Error Mod) (modIDs : List ModID) :
    fetchMods api modIDs = (maps.Copy [] (modWrites api 0 modIDs), modSuccesses api 0 modIDs) := by
  simp [fetchMods, GoMap.empty, fetchModsLoop_eq]

theorem keys_modWrites (api : Nat → ModID → Except Error Mod) (modIDs : List ModID) (i : Nat) :
    GoMap.keys (modWrites api i modIDs) = modIDs := by
  induction modIDs generalizing i with
  | nil => rfl
  | cons id rest ih =>
    have := ih (i + 1)
    simp only [GoMap.keys] at this
    simp [modWrites, GoMap.keys, this]

theorem mem_modWrites (api : Nat → ModID → Except Error Mod) (modIDs : List ModID) (i : Nat)
    (e : ModID × Result Mod) (h : e ∈ modWrites api i modIDs) :
    ∃ j, modIDs[j]? = some e.1 ∧ e.2 = (fetchModsGo e.1 (api (i + j) e.1)).1 := by
  induction modIDs generalizing i with
  | nil => simp [modWrites] at h
  | cons id rest ih =>
    simp only [modWrites, List.mem_cons] at h
    rcases h with h | h
    · exact ⟨0, by simp [h], by simp [h]⟩
    · obtain ⟨j, h1, h2⟩ := ih (i + 1) h
      refine ⟨j + 1, by simpa using h1, ?_⟩
      rw [h2]
      congr 3
      omega

/-! ## Facts on the results of the two fetches -/

theorem count_keys_of {l ids : List ModID} (hn : l.Nodup) (hm : ∀ x, x ∈ l ↔ x ∈ ids)
    (x : ModID) : l.count x = if x ∈ ids then 1 else 0 := by
  by_cases hx : x ∈ ids
  · simp only [hx, if_true]
    exact List.count_eq_one_of_mem hn ((hm x).2 hx)
  · simp only [hx, if_false]
    exact List.count_eq_zero_of_not_mem (fun h => hx ((hm x).1 h))

theorem nodup_keys_fileMap (gameVersion : String) (modLoader : ModLoader)
    (api : Nat → ModID → Except Error (List File)) (modIDs : List ModID) :
    (GoMap.keys (maps.Copy [] (fileWrites gameVersion modLoader api 0 modIDs))).Nodup :=
  nodup_keys_Copy _ [] List.nodup_nil

theorem mem_keys_fileMap (gameVersion : String) (modLoader : ModLoader)
    (api : Nat → ModID → Except Error (List File)) (modIDs : List ModID) (x : ModID) :
    x ∈ GoMap.keys (maps.Copy [] (fileWrites gameVersion modLoader api 0 modIDs)) ↔ x ∈ modIDs := by
  rw [mem_keys_Copy, keys_fileWrites]
  simp [GoMap.keys]

theorem nodup_keys_modMap (api : Nat → ModID → Except Error Mod) (modIDs : List ModID) :
    (GoMap.keys (fetchMods api modIDs).1).Nodup := by
  rw [fetchMods_eq]
  exact nodup_keys_Copy _ [] List.nodup_nil

theorem mem_keys_modMap (api : Nat → ModID → Except Error Mod) (modIDs : List ModID) (x : ModID) :
    x ∈ GoMap.keys (fetchMods api modIDs).1 ↔ x ∈ modIDs := by
  rw [fetchMods_eq, mem_keys_Copy, keys_modWrites]
  simp [GoMap.keys]

theorem fileResult_wf (gameVersion : String) (modLoader : ModLoader) (modID : ModID)
    (out : Except Error (List File)) :
    (fileResult gameVersion modLoader modID out).Value.isSome
      = (fileResult gameVersion modLoader modID out).Err.isNone := by
  rcases out with e | data
  · rfl
  · cases data <;> rfl

theorem fileMap_wf (gameVersion : String) (modLoader : ModLoader)
    (api : Nat → ModID → Except Error (List File)) (modIDs : List ModID)
    (e : ModID × Result File)
    (h : e ∈ maps.Copy [] (fileWrites gameVersion modLoader api 0 modIDs)) :
    e.2.Value.isSome = e.2.Err.isNone := by
  rcases mem_Copy _ _ e h with h | h
  · simp at h
  · obtain ⟨j, _, h2⟩ := mem_fileWrites _ _ _ _ _ e h
    rw [h2]
    exact fileResult_wf _ _ _ _

theorem exists_lookup_of_mem_keys {V : Type} (m : GoMap V) (k : ModID) (h : k ∈ GoMap.keys m) :
    ∃ v, GoMap.lookup m k = some v := by
  cases hl : GoMap.lookup m k with
  | none => exact absurd h ((GoMap.lookup_eq_none_iff m k).1 hl)
  | some v => exact ⟨v, rfl⟩

theorem modMap_value_isSome (api : Nat → ModID → Except Error Mod) (modIDs : List ModID)
    (e : ModID × Result Mod) (h : e ∈ (fetchMods api modIDs).1) : e.2.Value.isSome = true := by
  rw [fetchMods_eq] at h
  rcases mem_Copy _ _ e h with h | h
  · simp at h
  · obtain ⟨j, _, h2⟩ := mem_modWrites _ _ _ e h
    rw [h2]
    cases api (0 + j) e.1 <;> rfl

/-- C1: for every list of IDs and every outcome of the remote calls, the map of
`fetchModFiles` and the map of `fetchMods` hold exactly one entry for every input
ID and no other key. -/
theorem fetch_key_set (gameVersion : String) (modLoader : ModLoader)
    (apiFiles : Nat → ModID → Except Error (List File))
    (apiMod : Nat → ModID → Except Error Mod) (modIDs : List ModID) :
    (∃ m, fetchModFiles gameVersion modLoader apiFiles modIDs = some m ∧
      ∀ id, (GoMap.keys m).count id = if id ∈ modIDs then 1 else 0) ∧
    (∀ id, (GoMap.keys (fetchMods apiMod modIDs).1).count id = if id ∈ modIDs then 1 else 0) := by
  refine ⟨⟨_, fetchModFiles_eq gameVersion modLoader apiFiles modIDs, ?_⟩, ?_⟩
  · exact count_keys_of (nodup_keys_fileMap _ _ _ _) (mem_keys_fileMap _ _ _ _)
  · exact count_keys_of (nodup_keys_modMap _ _) (mem_keys_modMap _ _)

/-- C5: the goroutine of `fetchModFiles` never panics on `resp.Data[0]`; it stores
an Err when the query fails or returns an empty list, and an Ok of the first file
exactly when the query returns a non-empty list; every input ID has an entry in the
map returned, and every entry is what a goroutine of that ID stored. -/
theorem fetchModFiles_records (gameVersion : String) (modLoader : ModLoader)
    (api : Nat → ModID → Except Error (List File)) (modIDs : List ModID) :
    (∀ (id : ModID) (out : Except Error (List File)),
      ∃ r, fetchModFilesGo gameVersion modLoader id out = some r ∧
        (∀ e, out = .error e → r = util.Err e) ∧
        (out = .ok [] → r = util.Err (Error.noFiles id gameVersion modLoader)) ∧
        (∀ f fs, out = .ok (f :: fs) → r = util.Ok (some f)) ∧
        (r.Err = none ↔ ∃ f fs, out = .ok (f :: fs))) ∧
    ∃ m, fetchModFiles gameVersion modLoader api modIDs = some m ∧
      (∀ id, id ∈ modIDs → ∃ r, GoMap.lookup m id = some r) ∧
      ∀ id r, GoMap.lookup m id = some r →
        ∃ j, modIDs[j]? = some id ∧
          fetchModFilesGo gameVersion modLoader id (api j id) = some r := by
  constructor
  · intro id out
    refine ⟨_, fetchModFilesGo_eq gameVersion modLoader id out, ?_⟩
    rcases out with e | data
    · refine ⟨?_, ?_, ?_, ?_⟩
      · intro e' h; cases h; rfl
      · intro h; cases h
      · intro f fs h; cases h
      · simp [fileResult, util.Err]
    · cases data with
      | nil =>
        refine ⟨?_, ?_, ?_, ?_⟩
        · intro e' h; cases h
        · intro _; rfl
        · intro f fs h; cases h
        · simp [fileResult, util.Err]
      | cons f fs =>
        refine ⟨?_, ?_, ?_, ?_⟩
        · intro e' h; cases h
        · intro h; cases h
        · intro f' fs' h; cases h; rfl
        · simp [fileResult, util.Ok]
  · refine ⟨_, fetchModFiles_eq gameVersion modLoader api modIDs, ?_, ?_⟩
    · intro id hid
      exact exists_lookup_of_mem_keys _ _ ((mem_keys_fileMap _ _ _ _ id).2 hid)
    · intro id r h
      rcases mem_Copy _ _ _ (GoMap.mem_of_lookup _ _ _ h) with h1 | h1
      · simp at h1
      · obtain ⟨j, h2, h3⟩ := mem_fileWrites _ _ _ _ _ _ h1
        refine ⟨j, h2, ?_⟩
        rw [fetchModFilesGo_eq]
        simp only [Nat.zero_add] at h3
        rw [h3]

/-- C7: every input ID has an entry in the map of `fetchMods`, and every entry is
what a goroutine of that ID stored: when its call failed, the error with the
placeholder `&schema.Mod{ID: modID}`; when its call succeeded, the fetched
metadata and no error. -/
theorem fetchMods_records (api : Nat → ModID → Except Error Mod) (modIDs : List ModID) :
    (∀ id, id ∈ modIDs → ∃ r, GoMap.lookup (fetchMods api modIDs).1 id = some r) ∧
    ∀ id r, GoMap.lookup (fetchMods api modIDs).1 id = some r →
      ∃ j, modIDs[j]? = some id ∧
        ((∃ e, api j id = .error e ∧
            r = { Value := some { ID := id, Name := "" }, Err := some e }) ∨
         (∃ d, api j id = .ok d ∧ r = { Value := some d, Err := none })) := by
  constructor
  · intro id hid
    exact exists_lookup_of_mem_keys _ _ ((mem_keys_modMap _ _ id).2 hid)
  · intro id r h
    have hm := GoMap.mem_of_lookup _ _ _ h
    rw [fetchMods_eq] at hm
    rcases mem_Copy _ _ _ hm with h1 | h1
    · simp at h1
    · obtain ⟨j, h2, h3⟩ := mem_modWrites _ _ _ _ h1
      refine ⟨j, h2, ?_⟩
      simp only [Nat.zero_add] at h3
      cases hout : api j id with
      | error e =>
        left
        refine ⟨e, rfl, ?_⟩
        rw [h3, hout]
        rfl
      | ok d =>
        right
        refine ⟨d, rfl, ?_⟩
        rw [h3, hout]
        rfl

/-! ## `extractDeps` -/

theorem extractDepsTree_foldl (option : Bool) (results : fetchFileResult) (dt : DepTree) :
    results.foldl
      (fun dt entry =>
        match entry.2.Value with
        | none => dt
        | some file =>
          dt.AddNode (Dep entry.1
            (util.Map (fun dep => dep.ModID) (util.Filter (keepDep option) file.Dependencies))))
      dt
      = dt ++ results.filterMap (nodeOf option) := by
  induction results generalizing dt with
  | nil => simp
  | cons e tl ih =>
    rw [List.foldl_cons, ih]
    cases hv : e.2.Value with
    | none => simp [nodeOf, hv]
    | some file => simp [nodeOf, hv, DepTree.AddNode]

theorem extractDepsTree_eq (option : Bool) (results : fetchFileResult) :
    extractDepsTree option results = results.filterMap (nodeOf option) := by
  unfold extractDepsTree
  rw [extractDepsTree_foldl]
  simp [NewDepTree]

theorem keepDep_iff (option : Bool) (d : FileDependency) :
    keepDep option d = decide (d.RelationType = RelationType.RequiredDependency ∨
      (d.RelationType = RelationType.OptionalDependency ∧ option = true)) := by
  obtain ⟨t, rel⟩ := d
  cases rel <;> cases option <;> simp [keepDep]

theorem kept_eq_spec (option : Bool) (edges : List FileDependency) :
    util.Map (fun dep => dep.ModID) (util.Filter (keepDep option) edges)
      = specKeptTargets option edges := by
  unfold util.Map util.Filter specKeptTargets
  congr 1
  apply List.filter_congr
  intro d _
  exact keepDep_iff option d

theorem mem_extractDepsTree (option : Bool) (results : fetchFileResult) (n : DepNode) :
    n ∈ extractDepsTree option results ↔
      ∃ id r file, (id, r) ∈ results ∧ r.Value = some file ∧
        n = { id := id, deps := specKeptTargets option file.Dependencies } := by
  rw [extractDepsTree_eq, List.mem_filterMap]
  constructor
  · rintro ⟨⟨id, r⟩, hmem, hn⟩
    cases hv : r.Value with
    | none => simp [nodeOf, hv] at hn
    | some file =>
      simp only [nodeOf, hv, Option.map_some', Option.some.injEq] at hn
      refine ⟨id, r, file, hmem, hv, ?_⟩
      rw [← hn, kept_eq_spec]
      rfl
  · rintro ⟨id, r, file, hmem, hv, hn⟩
    refine ⟨(id, r), hmem, ?_⟩
    simp only [nodeOf, hv, Option.map_some', Option.some.injEq]
    rw [hn, kept_eq_spec]
    rfl

theorem extractDepsTree_ids (option : Bool) (results : fetchFileResult) :
    (extractDepsTree option results).map (fun n => n.id)
      = (results.filter (fun e => e.2.Value.isSome)).map Prod.fst := by
  rw [extractDepsTree_eq]
  induction results with
  | nil => rfl
  | cons e tl ih =>
    cases hv : e.2.Value with
    | none => simp [List.filterMap_cons, nodeOf, hv, ih]
    | some file => simp [List.filterMap_cons, nodeOf, hv, ih, Dep]

theorem extractDepsTree_mono (results : fetchFileResult) :
    List.Forall₂ (fun a b : DepNode => a.id = b.id ∧ a.deps.Sublist b.deps)
      (extractDepsTree false results) (extractDepsTree true results) := by
  rw [extractDepsTree_eq, extractDepsTree_eq]
  induction results with
  | nil => exact List.Forall₂.nil
  | cons e tl ih =>
    cases hv : e.2.Value with
    | none => simpa [List.filterMap_cons, nodeOf, hv] using ih
    | some file =>
      simp only [List.filterMap_cons, nodeOf, hv, Option.map_some']
      refine List.Forall₂.cons ⟨rfl, ?_⟩ ih
      simp only [Dep, util.Map, util.Filter]
      apply List.Sublist.map
      apply List.monotone_filter_right
      intro d hd
      obtain ⟨t, rel⟩ := d
      cases rel <;> simp_all [keepDep]

theorem specKeptTargets_optional_only (edges : List FileDependency) (t : ModID)
    (hreq : ∀ d, d ∈ edges → d.ModID = t → d.RelationType ≠ RelationType.RequiredDependency) :
    t ∉ specKeptTargets false edges ∧
    (t ∈ specKeptTargets true edges ↔
      ∃ d, d ∈ edges ∧ d.ModID = t ∧ d.RelationType = RelationType.OptionalDependency) := by
  constructor
  · intro h
    simp only [specKeptTargets, List.mem_map, List.mem_filter, decide_eq_true_eq] at h
    obtain ⟨d, ⟨hd, hk⟩, ht⟩ := h
    rcases hk with hk | hk
    · exact hreq d hd ht hk
    · exact absurd hk.2 (by decide)
  · simp only [specKeptTargets, List.mem_map, List.mem_filter, decide_eq_true_eq]
    constructor
    · rintro ⟨d, ⟨hd, hk⟩, ht⟩
      rcases hk with hk | hk
      · exact absurd hk (hreq d hd ht)
      · exact ⟨d, hd, ht, hk.1⟩
    · rintro ⟨d, hd, ht, hk⟩
      exact ⟨d, ⟨hd, Or.inr ⟨hk, trivial⟩⟩, ht⟩

/-- C3, as the claim states it, fails: an entry that has an error and a file gets a
node, because the loop tests `result.Value == nil` and not the error. -/
theorem extractDeps_node_of_entry_with_error :
    (∃ n, n ∈ extractDepsTree false exErrWithValue ∧ n.id = 1) ∧
    ¬ ∃ r, GoMap.lookup exErrWithValue 1 = some r ∧ r.Err = none := by
  constructor
  · exact ⟨⟨1, [30]⟩, by
      rw [mem_extractDepsTree]
      exact ⟨1, _, _, List.mem_cons_self _ _, rfl, by simp [specKeptTargets, exFile]⟩, rfl⟩
  · rintro ⟨r, h, he⟩
    simp only [exErrWithValue, GoMap.lookup, if_true, Option.some.injEq] at h
    rw [← h] at he
    cases he

/-- C3, amended: `extractDeps` adds one node for exactly each entry whose Result
holds a file (non-nil `Value`); for a map returned by `fetchModFiles` these are
exactly the entries whose Result is Ok.  The targets of the node are the targets
of the edges of the file, in order, whose relation is Required, or Optional with
the flag set; the targets kept without the flag are a sub-list of those kept with
it, and a target without a Required edge is never kept without the flag and is
kept with the flag exactly when it has an Optional edge. -/
theorem extractDeps_nodes (TopSort : DepTree → List ModID) (option : Bool)
    (results : fetchFileResult) (gameVersion : String) (modLoader : ModLoader)
    (api : Nat → ModID → Except Error (List File)) (modIDs : List ModID) :
    extractDeps TopSort option results = TopSort (extractDepsTree option results) ∧
    (extractDepsTree option results).map (fun n => n.id)
      = (results.filter (fun e => e.2.Value.isSome)).map Prod.fst ∧
    (∀ n, n ∈ extractDepsTree option results ↔
      ∃ id r file, (id, r) ∈ results ∧ r.Value = some file ∧
        n = { id := id, deps := specKeptTargets option file.Dependencies }) ∧
    List.Forall₂ (fun a b : DepNode => a.id = b.id ∧ a.deps.Sublist b.deps)
      (extractDepsTree false results) (extractDepsTree true results) ∧
    (∀ (edges : List FileDependency) (t : ModID),
      (∀ d, d ∈ edges → d.ModID = t → d.RelationType ≠ RelationType.RequiredDependency) →
      t ∉ specKeptTargets false edges ∧
      (t ∈ specKeptTargets true edges ↔
        ∃ d, d ∈ edges ∧ d.ModID = t ∧ d.RelationType = RelationType.OptionalDependency)) ∧
    (∃ m, fetchModFiles gameVersion modLoader api modIDs = some m ∧
      (extractDepsTree option m).map (fun n => n.id)
        = (m.filter (fun e => e.2.Err.isNone)).map Prod.fst) := by
  refine ⟨rfl, extractDepsTree_ids option results, mem_extractDepsTree option results,
    extractDepsTree_mono results, specKeptTargets_optional_only, ?_⟩
  refine ⟨_, fetchModFiles_eq gameVersion modLoader api modIDs, ?_⟩
  rw [extractDepsTree_ids]
  congr 1
  apply List.filter_congr
  intro e he
  exact fileMap_wf _ _ _ _ e he

/-- C6, as the claim states it, fails: the Result that `fetchModFiles` stores for a
failed fetch (remote error for 98, no matching file for 99) has an error and a nil
`Value`. -/
theorem failed_file_fetch_stores_nil_value :
    ∃ m, fetchModFiles "1.20.1" 1 exFailingFiles [98, 99] = some m ∧
      GoMap.lookup m 98 = some { Value := none, Err := some (Error.remote "timeout") } ∧
      GoMap.lookup m 99 = some { Value := none, Err := some (Error.noFiles 99 "1.20.1" 1) } := by
  refine ⟨_, fetchModFiles_eq _ _ _ _, ?_, ?_⟩ <;>
    simp [fileWrites, fileResult, exFailingFiles, maps.Copy, GoMap.store, GoMap.lookup, util.Err]

/-- C6, amended: the Result that `fetchModFiles` records for an ID whose fetch
failed is an Err with a nil `Value` (no placeholder); `extractDeps` skips it by its
nil check and adds no node for that ID. -/
theorem fetchModFiles_err_value_nil (gameVersion : String) (modLoader : ModLoader)
    (api : Nat → ModID → Except Error (List File)) (modIDs : List ModID) :
    ∃ m, fetchModFiles gameVersion modLoader api modIDs = some m ∧
      ∀ id r, GoMap.lookup m id = some r → r.Err ≠ none →
        r.Value = none ∧ ∀ option n, n ∈ extractDepsTree option m → n.id ≠ id := by
  refine ⟨_, fetchModFiles_eq gameVersion modLoader api modIDs, ?_⟩
  intro id r hl herr
  have hwf := fileMap_wf _ _ _ _ _ (GoMap.mem_of_lookup _ _ _ hl)
  have hv : r.Value = none := by
    cases hv : r.Value with
    | none => rfl
    | some f =>
      cases he : r.Err with
      | none => exact absurd he herr
      | some e => simp [hv, he] at hwf
  refine ⟨hv, ?_⟩
  intro option n hn hid
  rw [mem_extractDepsTree] at hn
  obtain ⟨id', r', file, hmem, hval, hn'⟩ := hn
  have hid' : id' = id := by rw [hn'] at hid; exact hid
  subst hid'
  have := GoMap.lookup_of_mem _ _ _ (nodup_keys_fileMap _ _ _ _) hmem
  rw [hl] at this
  cases this
  rw [hv] at hval
  cases hval

/-! ## `renderModInfoTable` -/

theorem appendMod_some (modInfoMap : fetchModResult) (isDep : Bool) (fileMap : fetchFileResult)
    (index : Nat) (rows : List Row)
    (h : ∀ e, e ∈ fileMap → (GoMap.index modInfoMap e.1).Err = none →
      (GoMap.index modInfoMap e.1).Value.isSome = true) :
    ∃ rows', appendMod modInfoMap isDep fileMap (index, rows)
        = some (index + fileMap.length, rows ++ rows') ∧
      rows'.map (fun r => (r.modID, r.isDep)) = fileMap.map (fun e => (e.1, isDep)) := by
  induction fileMap generalizing index rows with
  | nil => exact ⟨[], by simp [appendMod], rfl⟩
  | cons e tl ih =>
    obtain ⟨modID, result⟩ := e
    have htl : ∀ e, e ∈ tl → (GoMap.index modInfoMap e.1).Err = none →
        (GoMap.index modInfoMap e.1).Value.isSome = true :=
      fun e he => h e (List.mem_cons_of_mem _ he)
    cases herr : (GoMap.index modInfoMap modID).Err with
    | some err =>
      obtain ⟨rows', h1, h2⟩ := ih (index + 1) (rows ++ [Row.failed index modID err isDep]) htl
      refine ⟨Row.failed index modID err isDep :: rows', ?_, ?_⟩
      · simp only [appendMod, herr]
        rw [h1]
        simp [Nat.add_assoc, Nat.add_comm 1]
      · rw [List.map_cons, h2]
        rfl
    | none =>
      have hv := h (modID, result) (List.mem_cons_self _ _) herr
      cases hval : (GoMap.index modInfoMap modID).Value with
      | none => simp [hval] at hv
      | some mod =>
        obtain ⟨rows', h1, h2⟩ := ih (index + 1)
          (rows ++ [Row.info index modID mod.Name
            (match result.Value with
              | some file => some file.FileDate
              | none => none) isDep]) htl
        refine ⟨Row.info index modID mod.Name
            (match result.Value with
              | some file => some file.FileDate
              | none => none) isDep :: rows', ?_, ?_⟩
        · simp only [appendMod, herr, hval]
          rw [h1]
          simp [Nat.add_assoc, Nat.add_comm 1]
        · rw [List.map_cons, h2]
          rfl

theorem renderModInfoTable_some (modInfoMap : fetchModResult)
    (directFileMap depFileMap : fetchFileResult)
    (h : ∀ e, e ∈ depFileMap ++ directFileMap → (GoMap.index modInfoMap e.1).Err = none →
      (GoMap.index modInfoMap e.1).Value.isSome = true) :
    ∃ rows, renderModInfoTable modInfoMap directFileMap depFileMap = some rows ∧
      rows.map (fun r => (r.modID, r.isDep))
        = depFileMap.map (fun e => (e.1, true)) ++ directFileMap.map (fun e => (e.1, false)) := by
  obtain ⟨rows1, h1, h2⟩ := appendMod_some modInfoMap true depFileMap 1 []
    (fun e he => h e (List.mem_append_left _ he))
  obtain ⟨rows2, h3, h4⟩ := appendMod_some modInfoMap false directFileMap
    (1 + depFileMap.length) ([] ++ rows1) (fun e he => h e (List.mem_append_right _ he))
  refine ⟨([] ++ rows1) ++ rows2, ?_, ?_⟩
  · simp only [renderModInfoTable, h1, h3]
  · simp [h2, h4]

theorem index_modMap_value (api : Nat → ModID → Except Error Mod) (modIDs : List ModID)
    (k : ModID) (hk : k ∈ modIDs) :
    (GoMap.index (fetchMods api modIDs).1 k).Value.isSome = true := by
  obtain ⟨r, hr⟩ := exists_lookup_of_mem_keys _ _ ((mem_keys_modMap api modIDs k).2 hk)
  simp only [GoMap.index, hr, Option.getD_some]
  exact modMap_value_isSome api modIDs (k, r) (GoMap.mem_of_lookup _ _ _ hr)

/-! ## `Add` -/

theorem gate_calls (c : Prop) [Decidable c] (p : Bool) (l : List Bool) :
    (if c then (p, l) else (false, [])).2 = if c then l else [] := by
  by_cases hc : c <;> simp [hc]

theorem gate_value {α : Type} (c : Prop) [Decidable c] (p : Bool) (l : List Bool) (x : α) :
    (if (if c then (p, l) else (false, [])).1 = true then some x else none)
      = if c ∧ p = true then some x else none := by
  by_cases hc : c <;> by_cases hp : p = true <;> simp [hc, hp]

theorem Add_of_parse (env : Env) (modLoaderStr : String) (confirm optDep : Bool)
    (ids : List Int) (modLoader : ModLoader)
    (h : env.ParseModLoader modLoaderStr = .ok modLoader) :
    ∃ run, Add env modLoaderStr confirm optDep ids = some run ∧
      run.err = none ∧
      run.modFileMap
        = maps.Copy [] (fileWrites env.GameVersion modLoader (env.ModFiles 0) 0 ids) ∧
      run.deps = extractDeps env.TopSort optDep run.modFileMap ∧
      run.depIDs
        = util.Filter (fun id => !(GoMap.lookup run.modFileMap id).isSome) run.deps ∧
      run.depFileMap
        = maps.Copy [] (fileWrites env.GameVersion modLoader (env.ModFiles 1) 0 run.depIDs) ∧
      run.modMap
        = (fetchMods env.Mod (util.Keys run.modFileMap ++ util.Keys run.depFileMap)).1 ∧
      run.found
        = (fetchMods env.Mod (util.Keys run.modFileMap ++ util.Keys run.depFileMap)).2 ∧
      renderModInfoTable run.modMap run.modFileMap run.depFileMap = some run.table ∧
      run.table.map (fun r => (r.modID, r.isDep))
        = run.depFileMap.map (fun e => (e.1, true))
          ++ run.modFileMap.map (fun e => (e.1, false)) ∧
      run.promptCalls = (if run.found > 0 then [confirm] else []) ∧
      run.download
        = (if run.found > 0 ∧ env.promptDownload confirm = true then
            some { merged := maps.Copy run.modFileMap run.depFileMap,
                   Mods := (downloadLoop env.NewMod modLoader run.modMap
                     (maps.Copy run.modFileMap run.depFileMap) (env.Mods, [])).1,
                   downloadMods := (downloadLoop env.NewMod modLoader run.modMap
                     (maps.Copy run.modFileMap run.depFileMap) (env.Mods, [])).2,
                   downloadCnt := env.Download (downloadLoop env.NewMod modLoader run.modMap
                     (maps.Copy run.modFileMap run.depFileMap) (env.Mods, [])).2 }
          else none) ∧
      run.modFilesCalls = ids ++ run.depIDs ∧
      run.modCalls = util.Keys run.modFileMap ++ util.Keys run.depFileMap := by
  have hrender := renderModInfoTable_some
    (fetchMods env.Mod
      (util.Keys (maps.Copy [] (fileWrites env.GameVersion modLoader (env.ModFiles 0) 0 ids))
        ++ util.Keys (maps.Copy [] (fileWrites env.GameVersion modLoader (env.ModFiles 1) 0
          (util.Filter
            (fun id => !(GoMap.lookup
              (maps.Copy [] (fileWrites env.GameVersion modLoader (env.ModFiles 0) 0 ids))
              id).isSome)
            (extractDeps env.TopSort optDep
              (maps.Copy [] (fileWrites env.GameVersion modLoader (env.ModFiles 0) 0 ids)))))))).1
    (maps.Copy [] (fileWrites env.GameVersion modLoader (env.ModFiles 0) 0 ids))
    (maps.Copy [] (fileWrites env.GameVersion modLoader (env.ModFiles 1) 0
      (util.Filter
        (fun id => !(GoMap.lookup
          (maps.Copy [] (fileWrites env.GameVersion modLoader (env.ModFiles 0) 0 ids))
          id).isSome)
        (extractDeps env.TopSort optDep
          (maps.Copy [] (fileWrites env.GameVersion modLoader (env.ModFiles 0) 0 ids))))))
    (by
      intro e he _
      apply index_modMap_value
      simp only [util.Keys, List.mem_append] at he ⊢
      rcases he with he | he
      · exact Or.inr (GoMap.mem_keys_of_mem _ e he)
      · exact Or.inl (GoMap.mem_keys_of_mem _ e he))
  obtain ⟨rows, hr1, hr2⟩ := hrender
  have hids : util.Map (fun id : Int => id) ids = ids := by simp [util.Map]
  simp only [Add, h, hids, fetchModFiles_eq, hr1]
  refine ⟨_, rfl, rfl, rfl, rfl, rfl, rfl, rfl, rfl, hr1, hr2, ?_, ?_, rfl, rfl⟩
  · exact gate_calls _ _ _
  · exact gate_value _ _ _ _

theorem not_mem_of_mem_depIDs (m : fetchFileResult) (deps : List ModID) (d : ModID)
    (h : d ∈ util.Filter (fun id => !(GoMap.lookup m id).isSome) deps) : d ∉ GoMap.keys m := by
  simp only [util.Filter, List.mem_filter, Bool.not_eq_true'] at h
  intro hd
  rw [(GoMap.lookup_isSome_iff m d).2 hd] at h
  exact Bool.noConfusion h.2

theorem nodup_allModIDs (gameVersion : String) (modLoader : ModLoader)
    (api api' : Nat → ModID → Except Error (List File)) (ids depIDs : List ModID)
    (h : ∀ d, d ∈ depIDs →
      d ∉ GoMap.keys (maps.Copy [] (fileWrites gameVersion modLoader api 0 ids))) :
    (util.Keys (maps.Copy [] (fileWrites gameVersion modLoader api 0 ids))
      ++ util.Keys (maps.Copy [] (fileWrites gameVersion modLoader api' 0 depIDs))).Nodup := by
  refine List.Nodup.append (nodup_keys_fileMap _ _ _ _) (nodup_keys_fileMap _ _ _ _) ?_
  intro x hx hx'
  exact h x ((mem_keys_fileMap _ _ _ _ x).1 hx') hx

theorem fetchMods_of_nodup (api : Nat → ModID → Except Error Mod) (modIDs : List ModID)
    (h : modIDs.Nodup) : (fetchMods api modIDs).1 = modWrites api 0 modIDs := by
  rw [fetchMods_eq]
  have := Copy_of_disjoint (modWrites api 0 modIDs) []
    (by rw [keys_modWrites]; exact h) (by intro x _; simp [GoMap.keys])
  simpa using this

theorem modSuccesses_pos_iff (api : Nat → ModID → Except Error Mod) (modIDs : List ModID)
    (i : Nat) :
    0 ≤ modSuccesses api i modIDs ∧
    (0 < modSuccesses api i modIDs ↔ ∃ e, e ∈ modWrites api i modIDs ∧ e.2.Err = none) := by
  induction modIDs generalizing i with
  | nil => simp [modSuccesses, modWrites]
  | cons id rest ih =>
    obtain ⟨h0, h1⟩ := ih (i + 1)
    cases hout : api i id with
    | error e =>
      have hgo : fetchModsGo id (Except.error e)
          = ({ Value := some { Mod.zero with ID := id }, Err := some e }, 0) := rfl
      simp only [modSuccesses, modWrites, hout, hgo, zero_add, List.mem_cons]
      refine ⟨h0, ?_⟩
      rw [h1]
      constructor
      · rintro ⟨e', he', hok⟩
        exact ⟨e', Or.inr he', hok⟩
      · rintro ⟨e', he' | he', hok⟩
        · rw [he'] at hok
          cases hok
        · exact ⟨e', he', hok⟩
    | ok d =>
      have hgo : fetchModsGo id (Except.ok d) = (util.Ok (some d), 1) := rfl
      simp only [modSuccesses, modWrites, hout, hgo, List.mem_cons]
      refine ⟨by omega, ?_⟩
      constructor
      · intro _
        exact ⟨_, Or.inl rfl, rfl⟩
      · intro _
        omega

theorem found_pos_iff (api : Nat → ModID → Except Error Mod) (modIDs : List ModID)
    (h : modIDs.Nodup) :
    0 < (fetchMods api modIDs).2 ↔
      ∃ id r, GoMap.lookup (fetchMods api modIDs).1 id = some r ∧ r.Err = none := by
  have hn := nodup_keys_modMap api modIDs
  rw [fetchMods_of_nodup api modIDs h] at hn ⊢
  have h2 : (fetchMods api modIDs).2 = modSuccesses api 0 modIDs := by rw [fetchMods_eq]
  rw [h2, (modSuccesses_pos_iff api modIDs 0).2]
  constructor
  · rintro ⟨e, he, hok⟩
    exact ⟨e.1, e.2, GoMap.lookup_of_mem _ _ _ hn he, hok⟩
  · rintro ⟨id, r, hl, hok⟩
    exact ⟨(id, r), GoMap.mem_of_lookup _ _ _ hl, hok⟩

theorem downloadLoop_tasks (NewMod : ModLoader → Option Mod → Option File → IndexMod)
    (modLoader : ModLoader) (modMap : fetchModResult) (l : fetchFileResult)
    (mods : GoMap IndexMod) (tasks : List DownloadTask) :
    (downloadLoop NewMod modLoader modMap l (mods, tasks)).2
      = tasks ++ (l.filter hasDownload).map (downloadTaskOf NewMod modLoader modMap) := by
  induction l generalizing mods tasks with
  | nil => simp [downloadLoop]
  | cons e tl ih =>
    obtain ⟨modID, result⟩ := e
    simp only [downloadLoop]
    rw [ih]
    cases hv : result.Value with
    | none => simp [hasDownload, hv]
    | some file =>
      by_cases hc : file.DownloadURL ≠ "" ∧ file.FileName ≠ ""
      · simp [hasDownload, hv, hc, downloadTaskOf]
      · simp [hasDownload, hv, hc]

theorem hasDownload_eq_spec (e : ModID × Result File)
    (h : e.2.Value.isSome = e.2.Err.isNone) : hasDownload e = specEligible e.2 := by
  obtain ⟨id, r⟩ := e
  obtain ⟨v, err⟩ := r
  cases v <;> cases err <;> simp_all [hasDownload, specEligible]

/-- C2: in `Add`, whatever list `extractDeps` returns, no ID handed to the fetch of
the dependency files is a key of the direct-file map, and after
`maps.Copy(modFileMap, depFileMap)` every requested ID has exactly one entry, the
Result of the direct fetch. -/
theorem add_merge_keeps_direct (env : Env) (modLoaderStr : String) (confirm optDep : Bool)
    (ids : List Int) (modLoader : ModLoader)
    (h : env.ParseModLoader modLoaderStr = .ok modLoader) :
    ∃ run, Add env modLoaderStr confirm optDep ids = some run ∧
      run.deps = extractDeps env.TopSort optDep run.modFileMap ∧
      run.depIDs = util.Filter (fun id => !(GoMap.lookup run.modFileMap id).isSome) run.deps ∧
      (∀ d, d ∈ run.depIDs → GoMap.lookup run.modFileMap d = none) ∧
      (∀ id, id ∈ ids → ∃ r, GoMap.lookup run.modFileMap id = some r ∧
        GoMap.lookup (maps.Copy run.modFileMap run.depFileMap) id = some r ∧
        GoMap.lookup run.depFileMap id = none ∧
        (GoMap.keys (maps.Copy run.modFileMap run.depFileMap)).count id = 1) ∧
      (∀ stage, run.download = some stage →
        stage.merged = maps.Copy run.modFileMap run.depFileMap) := by
  obtain ⟨run, hrun, _, hm, hdeps, hdepIDs, hdm, _, _, _, _, _, hdl, _, _⟩ :=
    Add_of_parse env modLoaderStr confirm optDep ids modLoader h
  have hnot : ∀ d, d ∈ run.depIDs → d ∉ GoMap.keys run.modFileMap := by
    intro d hd
    rw [hdepIDs] at hd
    exact not_mem_of_mem_depIDs _ _ d hd
  refine ⟨run, hrun, hdeps, hdepIDs, ?_, ?_, ?_⟩
  · intro d hd
    exact (GoMap.lookup_eq_none_iff _ d).2 (hnot d hd)
  · intro id hid
    have hkey : id ∈ GoMap.keys run.modFileMap := by
      rw [hm]
      exact (mem_keys_fileMap _ _ _ _ id).2 hid
    have hdep : id ∉ GoMap.keys run.depFileMap := by
      rw [hdm]
      intro hc
      exact hnot id ((mem_keys_fileMap _ _ _ _ id).1 hc) hkey
    obtain ⟨r, hr⟩ := exists_lookup_of_mem_keys _ _ hkey
    refine ⟨r, hr, ?_, (GoMap.lookup_eq_none_iff _ id).2 hdep, ?_⟩
    · rw [lookup_Copy_of_not_mem _ _ id hdep, hr]
    · apply List.count_eq_one_of_mem
      · apply nodup_keys_Copy
        rw [hm]
        exact nodup_keys_fileMap _ _ _ _
      · exact (mem_keys_Copy _ _ id).2 (Or.inl hkey)
  · intro stage hs
    rw [hdl] at hs
    by_cases hc : run.found > 0 ∧ env.promptDownload confirm = true
    · rw [if_pos hc] at hs
      cases hs
      rfl
    · rw [if_neg hc] at hs
      cases hs

/-- The instance of C2 at the example environment. -/
theorem add_merge_keeps_direct_witness :
    exEnv.ParseModLoader "forge" = .ok 1 ∧
    ∃ run, Add exEnv "forge" true true [10, 20] = some run ∧
      run.deps = extractDeps exEnv.TopSort true run.modFileMap ∧
      run.depIDs = util.Filter (fun id => !(GoMap.lookup run.modFileMap id).isSome) run.deps ∧
      (∀ d, d ∈ run.depIDs → GoMap.lookup run.modFileMap d = none) ∧
      (∀ id, id ∈ [10, 20] → ∃ r, GoMap.lookup run.modFileMap id = some r ∧
        GoMap.lookup (maps.Copy run.modFileMap run.depFileMap) id = some r ∧
        GoMap.lookup run.depFileMap id = none ∧
        (GoMap.keys (maps.Copy run.modFileMap run.depFileMap)).count id = 1) ∧
      (∀ stage, run.download = some stage →
        stage.merged = maps.Copy run.modFileMap run.depFileMap) :=
  ⟨rfl, add_merge_keeps_direct exEnv "forge" true true [10, 20] 1 rfl⟩

theorem fetches_of_run (env : Env) (modLoader : ModLoader) (optDep : Bool) (ids : List Int)
    (run : AddRun)
    (hm : run.modFileMap
      = maps.Copy [] (fileWrites env.GameVersion modLoader (env.ModFiles 0) 0 ids))
    (hdeps : run.deps = extractDeps env.TopSort optDep run.modFileMap)
    (hdepIDs : run.depIDs
      = util.Filter (fun id => !(GoMap.lookup run.modFileMap id).isSome) run.deps)
    (hdm : run.depFileMap
      = maps.Copy [] (fileWrites env.GameVersion modLoader (env.ModFiles 1) 0 run.depIDs))
    (hmod : run.modMap
      = (fetchMods env.Mod (util.Keys run.modFileMap ++ util.Keys run.depFileMap)).1)
    (hfound : run.found
      = (fetchMods env.Mod (util.Keys run.modFileMap ++ util.Keys run.depFileMap)).2) :
    fetchModFiles env.GameVersion modLoader (env.ModFiles 0) ids = some run.modFileMap ∧
    fetchModFiles env.GameVersion modLoader (env.ModFiles 1)
      (util.Filter (fun id => !(GoMap.lookup run.modFileMap id).isSome)
        (extractDeps env.TopSort optDep run.modFileMap)) = some run.depFileMap ∧
    (run.modMap, run.found)
      = fetchMods env.Mod (util.Keys run.modFileMap ++ util.Keys run.depFileMap) := by
  refine ⟨?_, ?_, ?_⟩
  · rw [hm]
    exact fetchModFiles_eq _ _ _ _
  · rw [← hdeps, ← hdepIDs, hdm]
    exact fetchModFiles_eq _ _ _ _
  · rw [hmod, hfound]

/-- C4: the download stage of `Add` is entered when `found > 0` and the prompt
returns true, and only then.  Its merged map is the direct-file map after
`maps.Copy`; the tasks it builds are the tasks of exactly those entries of the
merged map whose Result is Ok with a file that has a non-empty download URL and a
non-empty file name, one task per such entry, and these tasks are what
`util.Download` receives. -/
theorem add_download_tasks (env : Env) (modLoaderStr : String) (confirm optDep : Bool)
    (ids : List Int) (modLoader : ModLoader)
    (h : env.ParseModLoader modLoaderStr = .ok modLoader) :
    ∃ run, Add env modLoaderStr confirm optDep ids = some run ∧
      fetchModFiles env.GameVersion modLoader (env.ModFiles 0) ids = some run.modFileMap ∧
      fetchModFiles env.GameVersion modLoader (env.ModFiles 1)
        (util.Filter (fun id => !(GoMap.lookup run.modFileMap id).isSome)
          (extractDeps env.TopSort optDep run.modFileMap)) = some run.depFileMap ∧
      (run.modMap, run.found)
        = fetchMods env.Mod (util.Keys run.modFileMap ++ util.Keys run.depFileMap) ∧
      ((0 < run.found ∧ env.promptDownload confirm = true) →
        ∃ stage, run.download = some stage ∧
          stage.merged = maps.Copy run.modFileMap run.depFileMap ∧
          stage.downloadMods
            = (stage.merged.filter (fun e => specEligible e.2)).map
                (downloadTaskOf env.NewMod modLoader run.modMap) ∧
          stage.downloadMods.length
            = (stage.merged.filter (fun e => specEligible e.2)).length ∧
          stage.downloadCnt = env.Download stage.downloadMods) ∧
      (¬ (0 < run.found ∧ env.promptDownload confirm = true) → run.download = none) := by
  obtain ⟨run, hrun, _, hm, hdeps, hdepIDs, hdm, hmod, hfound, _, _, _, hdl, _, _⟩ :=
    Add_of_parse env modLoaderStr confirm optDep ids modLoader h
  obtain ⟨hf1, hf2, hf3⟩ :=
    fetches_of_run env modLoader optDep ids run hm hdeps hdepIDs hdm hmod hfound
  refine ⟨run, hrun, hf1, hf2, hf3, ?_, ?_⟩
  · intro hc
    rw [if_pos hc] at hdl
    have hfilter : (maps.Copy run.modFileMap run.depFileMap).filter hasDownload
        = (maps.Copy run.modFileMap run.depFileMap).filter (fun e => specEligible e.2) := by
      apply List.filter_congr
      intro e he
      apply hasDownload_eq_spec
      rcases mem_Copy _ _ e he with he | he
      · rw [hm] at he
        exact fileMap_wf _ _ _ _ e he
      · rw [hdm] at he
        exact fileMap_wf _ _ _ _ e he
    have htasks := downloadLoop_tasks env.NewMod modLoader run.modMap
      (maps.Copy run.modFileMap run.depFileMap) env.Mods []
    rw [hfilter] at htasks
    refine ⟨_, hdl, rfl, ?_, ?_, rfl⟩
    · simpa using htasks
    · simp only [htasks, List.nil_append, List.length_map]
  · intro hc
    rw [if_neg hc] at hdl
    exact hdl

/-- The instance of C4 at the example environment, for the IDs 10 and 20 with the
prompt confirmed: two metadata fetches succeed, the stage is entered, the merged
map has the keys 10, 20 and 30, and the tasks are those of 10 and 30 (20 has no
file). -/
theorem add_download_tasks_witness :
    exEnv.ParseModLoader "forge" = .ok 1 ∧
    ∃ run stage, Add exEnv "forge" true false [10, 20] = some run ∧
      0 < run.found ∧ exEnv.promptDownload true = true ∧
      run.download = some stage ∧
      stage.merged = maps.Copy run.modFileMap run.depFileMap ∧
      GoMap.keys stage.merged = [10, 20, 30] ∧
      stage.downloadMods
        = (stage.merged.filter (fun e => specEligible e.2)).map
            (downloadTaskOf exEnv.NewMod 1 run.modMap) ∧
      stage.downloadMods
        = [{ FileName := "a.jar", Url := "https://example.invalid/a.jar", MD5Sum := "" },
           { FileName := "c.jar", Url := "https://example.invalid/c.jar", MD5Sum := "" }] ∧
      stage.downloadCnt = exEnv.Download stage.downloadMods ∧
      stage.downloadCnt = 2 := by
  refine ⟨rfl, ?_⟩
  obtain ⟨run, hrun, _, _, _, hopen, _⟩ :=
    add_download_tasks exEnv "forge" true false [10, 20] 1 rfl
  have hfound : (Add exEnv "forge" true false [10, 20]).map (fun r => r.found) = some 2 := by
    decide
  have hkeys : (Add exEnv "forge" true false [10, 20]).map
      (fun r => GoMap.keys (maps.Copy r.modFileMap r.depFileMap)) = some [10, 20, 30] := by
    decide
  have htasks : (Add exEnv "forge" true false [10, 20]).map
      (fun r => r.download.map (fun st => st.downloadMods))
      = some (some
          [{ FileName := "a.jar", Url := "https://example.invalid/a.jar", MD5Sum := "" },
           { FileName := "c.jar", Url := "https://example.invalid/c.jar", MD5Sum := "" }]) := by
    decide
  rw [hrun] at hfound hkeys htasks
  simp only [Option.map_some', Option.some.injEq] at hfound hkeys htasks
  have hpos : 0 < run.found := by rw [hfound]; decide
  obtain ⟨stage, hs, hmerged, hmods, _, hcnt⟩ := hopen ⟨hpos, rfl⟩
  rw [hs] at htasks
  simp only [Option.map_some', Option.some.injEq] at htasks
  refine ⟨run, stage, hrun, hpos, rfl, hs, hmerged, ?_, hmods, htasks, hcnt, ?_⟩
  · rw [hmerged]
    exact hkeys
  · rw [hcnt, htasks]
    rfl

/-- C8: in `Add`, the metadata map and the count `found` are what `fetchMods`
returns for the keys of the two file maps, and `found` is positive exactly when
some entry of the metadata map is Ok.  `promptDownload` is called, once, exactly
then, and the download stage is entered exactly when moreover it returns true;
when no entry is Ok the prompt is not called and the stage is not entered.  With no
ID requested (and a `TopSort` that returns nothing for the empty tree) nothing is
fetched, the prompt is not called and the stage is not entered. -/
theorem add_download_gate (env : Env) (modLoaderStr : String) (confirm optDep : Bool)
    (ids : List Int) (modLoader : ModLoader)
    (h : env.ParseModLoader modLoaderStr = .ok modLoader) :
    ∃ run, Add env modLoaderStr confirm optDep ids = some run ∧
      fetchModFiles env.GameVersion modLoader (env.ModFiles 0) ids = some run.modFileMap ∧
      fetchModFiles env.GameVersion modLoader (env.ModFiles 1)
        (util.Filter (fun id => !(GoMap.lookup run.modFileMap id).isSome)
          (extractDeps env.TopSort optDep run.modFileMap)) = some run.depFileMap ∧
      (run.modMap, run.found)
        = fetchMods env.Mod (util.Keys run.modFileMap ++ util.Keys run.depFileMap) ∧
      (0 < run.found ↔ ∃ id r, GoMap.lookup run.modMap id = some r ∧ r.Err = none) ∧
      ((∃ id r, GoMap.lookup run.modMap id = some r ∧ r.Err = none) →
        run.promptCalls = [confirm]) ∧
      ((¬ ∃ id r, GoMap.lookup run.modMap id = some r ∧ r.Err = none) →
        run.promptCalls = [] ∧ run.download = none) ∧
      (run.download.isSome = true ↔
        (∃ id r, GoMap.lookup run.modMap id = some r ∧ r.Err = none) ∧
          env.promptDownload confirm = true) ∧
      (ids = [] → env.TopSort NewDepTree = [] →
        run.modMap = [] ∧ run.found = 0 ∧ run.promptCalls = [] ∧ run.download = none) := by
  obtain ⟨run, hrun, _, hm, hdeps, hdepIDs, hdm, hmod, hfound, _, _, hp, hdl, _, _⟩ :=
    Add_of_parse env modLoaderStr confirm optDep ids modLoader h
  obtain ⟨hf1, hf2, hf3⟩ :=
    fetches_of_run env modLoader optDep ids run hm hdeps hdepIDs hdm hmod hfound
  have hnot : ∀ d, d ∈ run.depIDs → d ∉ GoMap.keys run.modFileMap := by
    intro d hd
    rw [hdepIDs] at hd
    exact not_mem_of_mem_depIDs _ _ d hd
  have hnodup : (util.Keys run.modFileMap ++ util.Keys run.depFileMap).Nodup := by
    rw [hdm]
    rw [hm] at hnot ⊢
    exact nodup_allModIDs _ _ _ _ _ _ hnot
  have hpos : 0 < run.found ↔ ∃ id r, GoMap.lookup run.modMap id = some r ∧ r.Err = none := by
    rw [hfound, hmod]
    exact found_pos_iff env.Mod _ hnodup
  refine ⟨run, hrun, hf1, hf2, hf3, hpos, ?_, ?_, ?_, ?_⟩
  · intro hok
    rw [hp, if_pos (hpos.2 hok)]
  · intro hno
    have hf : ¬ run.found > 0 := fun hc => hno (hpos.1 hc)
    refine ⟨by rw [hp, if_neg hf], ?_⟩
    rw [hdl, if_neg (fun hc => hf hc.1)]
  · rw [hdl, ← hpos]
    by_cases hc : run.found > 0 ∧ env.promptDownload confirm = true
    · rw [if_pos hc]
      simpa using hc
    · rw [if_neg hc]
      simpa using hc
  · intro hids htop
    subst hids
    have hm' : run.modFileMap = [] := by rw [hm]; rfl
    have hdeps' : run.deps = [] := by
      rw [hdeps, hm']
      exact htop
    have hdepIDs' : run.depIDs = [] := by rw [hdepIDs, hdeps']; rfl
    have hdm' : run.depFileMap = [] := by rw [hdm, hdepIDs']; rfl
    have hmod' : run.modMap = [] := by rw [hmod, hm', hdm']; rfl
    have hfound' : run.found = 0 := by rw [hfound, hm', hdm']; rfl
    refine ⟨hmod', hfound', ?_, ?_⟩
    · rw [hp, hfound']
      rfl
    · rw [hdl, hfound']
      simp

/-- The instances of C8 at the example environment.  For the IDs 10 and 20 the
metadata of 10 and 30 is fetched: the prompt is called, and the stage is entered
when it confirms and not entered when it declines.  For the ID 20 alone no
metadata fetch succeeds: the prompt is not called and the stage is not entered.
For no ID nothing is fetched, the prompt is not called and the stage is not
entered. -/
theorem add_download_gate_witness :
    exEnv.ParseModLoader "forge" = .ok 1 ∧
    (∃ run, Add exEnv "forge" true false [10, 20] = some run ∧
      GoMap.keys run.modMap = [10, 20, 30] ∧ 0 < run.found ∧
      run.promptCalls = [true] ∧ run.download.isSome = true) ∧
    (∃ run, Add exEnv "forge" false false [10, 20] = some run ∧
      0 < run.found ∧ run.promptCalls = [false] ∧ run.download = none) ∧
    (∃ run, Add exEnv "forge" true false [20] = some run ∧
      GoMap.keys run.modMap = [20] ∧ ¬ 0 < run.found ∧
      run.promptCalls = [] ∧ run.download = none) ∧
    (exEnv.TopSort NewDepTree = [] ∧
      ∃ run, Add exEnv "forge" true false [] = some run ∧
        run.modMap = [] ∧ run.found = 0 ∧ run.promptCalls = [] ∧ run.download = none) := by
  refine ⟨rfl, ?_, ?_, ?_, rfl, ?_⟩
  · obtain ⟨run, hrun, _, _, _, hpos, hcalls, _, hdl, _⟩ :=
      add_download_gate exEnv "forge" true false [10, 20] 1 rfl
    have hmod : (Add exEnv "forge" true false [10, 20]).map (fun r => r.modMap)
        = some [(10, { Value := some { ID := 10, Name := "mod" }, Err := none }),
                (20, { Value := some { ID := 20, Name := "" },
                       Err := some (Error.remote "timeout") }),
                (30, { Value := some { ID := 30, Name := "mod" }, Err := none })] := by
      decide
    rw [hrun] at hmod
    simp only [Option.map_some', Option.some.injEq] at hmod
    have hok : ∃ id r, GoMap.lookup run.modMap id = some r ∧ r.Err = none :=
      ⟨10, _, by rw [hmod]; rfl, rfl⟩
    exact ⟨run, hrun, by rw [hmod]; rfl, hpos.2 hok, hcalls hok, hdl.2 ⟨hok, rfl⟩⟩
  · obtain ⟨run, hrun, _, _, _, hpos, hcalls, _, hdl, _⟩ :=
      add_download_gate exEnv "forge" false false [10, 20] 1 rfl
    have hmod : (Add exEnv "forge" false false [10, 20]).map (fun r => r.modMap)
        = some [(10, { Value := some { ID := 10, Name := "mod" }, Err := none }),
                (20, { Value := some { ID := 20, Name := "" },
                       Err := some (Error.remote "timeout") }),
                (30, { Value := some { ID := 30, Name := "mod" }, Err := none })] := by
      decide
    rw [hrun] at hmod
    simp only [Option.map_some', Option.some.injEq] at hmod
    have hok : ∃ id r, GoMap.lookup run.modMap id = some r ∧ r.Err = none :=
      ⟨10, _, by rw [hmod]; rfl, rfl⟩
    refine ⟨run, hrun, hpos.2 hok, hcalls hok, ?_⟩
    cases hd : run.download with
    | none => rfl
    | some stage =>
      have := (hdl.1 (by rw [hd]; rfl)).2
      exact absurd this (by decide)
  · obtain ⟨run, hrun, _, _, _, hpos, _, hno, _, _⟩ :=
      add_download_gate exEnv "forge" true false [20] 1 rfl
    have hmod : (Add exEnv "forge" true false [20]).map (fun r => r.modMap)
        = some [(20, { Value := some { ID := 20, Name := "" },
                       Err := some (Error.remote "timeout") })] := by
      decide
    rw [hrun] at hmod
    simp only [Option.map_some', Option.some.injEq] at hmod
    have hnone : ¬ ∃ id r, GoMap.lookup run.modMap id = some r ∧ r.Err = none := by
      rintro ⟨id, r, hl, he⟩
      have hmem := GoMap.mem_of_lookup _ _ _ hl
      rw [hmod] at hmem
      simp only [List.mem_singleton, Prod.mk.injEq] at hmem
      rw [hmem.2] at he
      cases he
    exact ⟨run, hrun, by rw [hmod]; rfl, fun hc => hnone (hpos.1 hc), (hno hnone).1,
      (hno hnone).2⟩
  · obtain ⟨run, hrun, _, _, _, _, _, _, _, hzero⟩ :=
      add_download_gate exEnv "forge" true false [] 1 rfl
    exact ⟨run, hrun, hzero rfl rfl⟩

/-- C9: `Add` always returns; it returns an error exactly when the mod loader does
not parse, and then no `api.ModFiles` and no `api.Mod` query was made; when the mod
loader parses it returns nil, whatever the outcomes of the queries. -/
theorem add_error_iff (env : Env) (modLoaderStr : String) (confirm optDep : Bool)
    (ids : List Int) :
    ∃ run, Add env modLoaderStr confirm optDep ids = some run ∧
      (run.err ≠ none ↔ ∃ e, env.ParseModLoader modLoaderStr = .error e) ∧
      ((∃ e, env.ParseModLoader modLoaderStr = .error e) →
        run.modFilesCalls = [] ∧ run.modCalls = []) ∧
      (∀ modLoader, env.ParseModLoader modLoaderStr = .ok modLoader →
        run.err = none ∧ run.modFilesCalls = ids ++ run.depIDs ∧
        run.modCalls = util.Keys run.modFileMap ++ util.Keys run.depFileMap) := by
  cases hparse : env.ParseModLoader modLoaderStr with
  | error e =>
    refine ⟨{ err := some (Error.invalidModLoader e modLoaderStr), modFilesCalls := [],
              modCalls := [], modFileMap := [], deps := [], depIDs := [], depFileMap := [],
              modMap := [], found := 0, table := [], promptCalls := [], download := none },
      by simp only [Add, hparse], ?_, ?_, ?_⟩
    · simp
    · intro _
      exact ⟨rfl, rfl⟩
    · intro modLoader hc
      cases hc
  | ok modLoader =>
    obtain ⟨run, hrun, herr, _, _, _, _, _, _, _, _, _, _, hc1, hc2⟩ :=
      Add_of_parse env modLoaderStr confirm optDep ids modLoader hparse
    refine ⟨run, hrun, ?_, ?_, ?_⟩
    · simp [herr]
    · rintro ⟨e, he⟩
      cases he
    · intro _ _
      exact ⟨herr, hc1, hc2⟩

/-- C10: for the three maps that `Add` hands to `renderModInfoTable`, every key of
either file map is a key of the metadata map and every metadata entry without an
error holds a value; the rendering does not panic, and its rows are one per entry
of the dependency map followed by one per entry of the direct map. -/
theorem add_render_rows (env : Env) (modLoaderStr : String) (confirm optDep : Bool)
    (ids : List Int) (modLoader : ModLoader)
    (h : env.ParseModLoader modLoaderStr = .ok modLoader) :
    ∃ run, Add env modLoaderStr confirm optDep ids = some run ∧
      (∀ id, id ∈ GoMap.keys run.modFileMap ∨ id ∈ GoMap.keys run.depFileMap →
        id ∈ GoMap.keys run.modMap) ∧
      (∀ id r, GoMap.lookup run.modMap id = some r → r.Err = none → r.Value ≠ none) ∧
      renderModInfoTable run.modMap run.modFileMap run.depFileMap = some run.table ∧
      run.table.map (fun r => (r.modID, r.isDep))
        = run.depFileMap.map (fun e => (e.1, true))
          ++ run.modFileMap.map (fun e => (e.1, false)) := by
  obtain ⟨run, hrun, _, _, _, _, _, hmod, _, hr1, hr2, _, _, _, _⟩ :=
    Add_of_parse env modLoaderStr confirm optDep ids modLoader h
  refine ⟨run, hrun, ?_, ?_, hr1, hr2⟩
  · intro id hid
    rw [hmod, mem_keys_modMap]
    simp only [util.Keys, List.mem_append]
    exact hid
  · intro id r hl _ hv
    have := modMap_value_isSome env.Mod _ (id, r) (by
      rw [← hmod]
      exact GoMap.mem_of_lookup _ _ _ hl)
    simp [hv] at this

/-- The instance of C10 at the example environment. -/
theorem add_render_rows_witness :
    exEnv.ParseModLoader "forge" = .ok 1 ∧
    ∃ run, Add exEnv "forge" true false [10, 20] = some run ∧
      (∀ id, id ∈ GoMap.keys run.modFileMap ∨ id ∈ GoMap.keys run.depFileMap →
        id ∈ GoMap.keys run.modMap) ∧
      (∀ id r, GoMap.lookup run.modMap id = some r → r.Err = none → r.Value ≠ none) ∧
      renderModInfoTable run.modMap run.modFileMap run.depFileMap = some run.table ∧
      run.table.map (fun r => (r.modID, r.isDep))
        = run.depFileMap.map (fun e => (e.1, true))
          ++ run.modFileMap.map (fun e => (e.1, false)) :=
  ⟨rfl, add_render_rows exEnv "forge" true false [10, 20] 1 rfl⟩

end M3
